import Mathlib

/-!
# Verification of the map-transfer bot's transfer-orchestration engine

Shallow embedding of the transfer pipeline of the Axis map-transfer bot:
the `ProgressTracker` step model (`src/utils/progress.ts`), the
`PterodactylService` remote-control and extraction-polling algorithms
(`src/services/pterodactyl.ts`), the `SftpService` two-hop relay transfer
(`src/services/sftp.ts`) and the `TransferService` pipeline driver
(`src/services/transfer.ts`).

Remote I/O (HTTP requests, SFTP operations, timers) is modelled by passing
the outcome of each external call as an explicit argument; thrown JS
exceptions become `Except` values.  Wall-clock timestamps are modelled as
`Nat` ticks supplied by the caller.
-/

namespace MapTransfer

/-! ## ProgressTracker (src/utils/progress.ts) -/

/-- `TransferProgress['status']`: the four step statuses. -/
inductive StepStatus
  | pending
  | running
  | completed
  | error
deriving DecidableEq, Repr

/-- One step record of the tracker (`TransferProgress`).  The `timestamp`
field models the JS `Date` as a `Nat` tick. -/
structure TransferProgress where
  step : String
  progress : Nat
  status : StepStatus
  message : String
  timestamp : Nat
deriving DecidableEq, Repr

/-- The tracker owns the ordered list of step records
(`private steps: TransferProgress[]`). -/
structure ProgressTracker where
  steps : List TransferProgress
deriving DecidableEq, Repr

/-- The fixed `stepsList` of `initializeSteps` (11 labels). -/
def stepsList : List String :=
  ["Préparation du transfert",
   "Arrêt srv1 & srv2",
   "Compression /world srv1",
   "Sauvegarde playerdata srv2",
   "Transfert SFTP srv1 → srv2",
   "Auto-restart serveur Build",
   "Suppression ancien /world srv2",
   "Décompression nouvelle map",
   "Nettoyage fichiers",
   "Restauration playerdata srv2",
   "Redémarrage serveur Staging"]

/-- `new ProgressTracker()` / `initializeSteps`: every step pending at 0%
with message "En attente...". `now` models `new Date()`. -/
def ProgressTracker.new (now : Nat) : ProgressTracker :=
  ⟨stepsList.map (fun s =>
    { step := s, progress := 0, status := .pending,
      message := "En attente...", timestamp := now })⟩

/-- `updateStep(stepIndex, status, message, progress)`: guarded by
`if (this.steps[stepIndex])`, so a negative or out-of-range index leaves the
tracker untouched; otherwise the record at that index is replaced, keeping
its label.  The index is an `Int` because JS callers pass `-1`
(`getCurrentStep()` misses). -/
def ProgressTracker.updateStep (t : ProgressTracker) (stepIndex : Int)
    (status : StepStatus) (message : String) (progress : Nat) (now : Nat) :
    ProgressTracker :=
  if stepIndex < 0 then t
  else
    match t.steps.get? stepIndex.toNat with
    | some s =>
        ⟨t.steps.set stepIndex.toNat
          { s with status := status, message := message,
                   progress := progress, timestamp := now }⟩
    | none => t

/-- `getCurrentStep()`: `findIndex(step => step.status === 'running')`,
`-1` when no step is running. -/
def ProgressTracker.getCurrentStep (t : ProgressTracker) : Int :=
  match t.steps.findIdx? (fun s => s.status = .running) with
  | some i => (i : Int)
  | none => -1

/-- JS `Math.round` on a nonnegative rational: half-up rounding. -/
def jsRound (q : ℚ) : Int := Int.floor (q + 1/2)

/-- `getOverallProgress()`:
`Math.round(((completedSteps + currentProgress / 100) / this.steps.length) * 100)`
with `currentProgress` the running step's progress, or 0 when
`getCurrentStep()` is `-1`.  Arithmetic is modelled exactly over `ℚ`. -/
def ProgressTracker.getOverallProgress (t : ProgressTracker) : Int :=
  let completedSteps : Nat :=
    (t.steps.filter (fun s => s.status = .completed)).length
  let currentStep := t.getCurrentStep
  let currentProgress : ℚ :=
    if 0 ≤ currentStep then
      (((t.steps.get? currentStep.toNat).map (·.progress)).getD 0 : Nat)
    else 0
  jsRound ((((completedSteps : ℚ) + currentProgress / 100) /
    (t.steps.length : ℚ)) * 100)

/-- `hasErrors()`: some step has status `error`. -/
def ProgressTracker.hasErrors (t : ProgressTracker) : Bool :=
  t.steps.any (fun s => s.status = .error)

/-- `isCompleted()`: every step has status `completed`. -/
def ProgressTracker.isCompleted (t : ProgressTracker) : Bool :=
  t.steps.all (fun s => s.status = .completed)

/-- Status of the step at index `j`, `none` when out of range. -/
def statusAt (t : ProgressTracker) (j : Nat) : Option StepStatus :=
  (t.steps.get? j).map (·.status)

/-- Message of the step at index `j`, `none` when out of range. -/
def messageAt (t : ProgressTracker) (j : Nat) : Option String :=
  (t.steps.get? j).map (·.message)

/-- Specification-side formula for the aggregate progress:
`round((completedCount + runningFraction/100) / total * 100)` (spec §4.1). -/
def specOverallProgress (total k p : Nat) : Int :=
  jsRound ((((k : ℚ) + (p : ℚ) / 100) / (total : ℚ)) * 100)

/-! ## PterodactylService.setPowerState

The variant of `setPowerState` cited by the spec (the one with the 409
conflict guard): POST `/power`; in the catch, a response with HTTP status
409 is logged and swallowed (`return`), any other failure is re-thrown as
`Impossible de <action> le serveur: ...`. -/

/-- `action ∈ {start, stop, restart, kill}`. -/
inductive PowerAction
  | start
  | stop
  | restart
  | kill
deriving DecidableEq, Repr

/-- `action.toUpperCase()` base name, used in the wrapped error message. -/
def PowerAction.name : PowerAction → String
  | .start => "start"
  | .stop => "stop"
  | .restart => "restart"
  | .kill => "kill"

/-- Outcome of an axios request: success, or a failure carrying the HTTP
status of the response when one exists (`error.response?.status`) and the
detail string (`error.response?.data?.errors?.[0]?.detail || error.message`). -/
inductive HttpOutcome
  | ok
  | failure (status : Option Nat) (detail : String)
deriving DecidableEq, Repr

/-- Result of a service call: normal return, or a thrown `Error` message. -/
inductive CallResult
  | success
  | thrown (msg : String)
deriving DecidableEq, Repr

/-- `setPowerState(action)` as a function of the power POST's outcome:
a 409 conflict is treated as success, any other failure throws. -/
def setPowerState (action : PowerAction) (post : HttpOutcome) : CallResult :=
  match post with
  | .ok => .success
  | .failure status detail =>
      if status = some 409 then .success
      else .thrown ("Impossible de " ++ action.name ++ " le serveur: " ++ detail)

/-! ## PterodactylService.waitForServerState

The polling variant of `waitForServerState` (the one that tracks
`lastState`): up to `maxAttempts = floor(maxWaitTime / 3000)` iterations.
Each iteration queries the state endpoints; `query k = some s` models a
successful state read `s` at attempt `k` (`apiWorked = true`),
`query k = none` models both endpoints failing or answering without a
`current_state` (then `currentState = 'unknown'`, `apiWorked = false`).
`lastState` always ends the iteration equal to `currentState`.

Exits: explicit match with the target; the await-offline fallback
(`!apiWorked && targetState === 'offline' && attempts > 5`); after the
loop, the permissive offline return (`attempts >= 10`); otherwise a thrown
timeout error carrying the last observed state.  The while-guard also
bounds the loop by wall-clock time; `loopIters` is the number of
iterations the guard admits (equal to `maxAttempts` when every iteration
takes exactly its 3 s sleep). -/

/-- Result of `waitForServerState`. -/
inductive WaitResult
  | matched (attempt : Nat)
  | assumedOffline (attempt : Nat)
  | optimistic (lastState : String)
  | timeoutError (lastState : String)
deriving DecidableEq, Repr

/-- The polling loop of `waitForServerState`, recursing on the remaining
iterations; `attempts` and `lastState` mirror the mutable locals. -/
def waitLoop (target : String) (query : Nat → Option String) :
    Nat → String → Nat → WaitResult
  | attempts, lastState, 0 =>
      if target = "offline" ∧ 10 ≤ attempts then .optimistic lastState
      else .timeoutError lastState
  | a, _, remaining + 1 =>
      if (query (a + 1)).getD "unknown" = target then .matched (a + 1)
      else if ¬(query (a + 1)).isSome ∧ target = "offline" ∧ 5 < a + 1 then
        .assumedOffline (a + 1)
      else waitLoop target query (a + 1) ((query (a + 1)).getD "unknown")
        remaining

/-- `waitForServerState(targetState, maxWaitTime)` with `loopIters` admitted
iterations (at most `maxWaitTime / 3000`); `attempts` starts at 0 and
`lastState` at `'unknown'`. -/
def waitForServerState (target : String) (query : Nat → Option String)
    (loopIters : Nat) : WaitResult :=
  waitLoop target query 0 "unknown" loopIters

/-- `maxAttempts = Math.floor(maxWaitTime / 3000)`. -/
def maxAttemptsFor (maxWaitTime : Nat) : Nat := maxWaitTime / 3000

/-! ## PterodactylService.extractArchive (extraction with extended polling)

`extractArchive(archivePath, destination)`:
1. list the destination as `filesBefore` (on listing failure, `[]`);
2. POST `/files/decompress`; success ⇒ return;
3. `ECONNABORTED` timeout ⇒ poll every 5 minutes, up to
   `maxPollingAttempts = 24` attempts; any other error is re-thrown and
   wrapped `Impossible d'extraire ...`;
4. an attempt whose listing shows new files or the archive's disappearance
   returns success; a listing error just consumes the attempt;
5. after 24 fruitless attempts, log a warning and return normally.

A listing is a `List (Option String)`: `none` models a null entry of the
panel's response, `some name` a file object with that `name`. -/

/-- A destination-directory listing: entry names, `none` for null entries. -/
abbrev Listing := List (Option String)

/-- `files.some(f => f?.name === archivePath)`. -/
def hasArchive (files : Listing) (archivePath : String) : Bool :=
  files.any (fun f => f = some archivePath)

/-- `files.some(fileBefore => fileBefore && fileBefore.name === n)`:
membership of the name `n` among the non-null entries. -/
def namedIn (files : Listing) (n : String) : Bool :=
  files.any (fun fb =>
    match fb with
    | none => false
    | some m => m = n)

/-- The `newFiles` filter:
`filesAfter.filter(fa => fa && fa.name && !filesBefore.some(fb => fb && fb.name === fa.name))`
(null entries and empty names are never counted as new). -/
def newFiles (filesBefore filesAfter : Listing) : Listing :=
  filesAfter.filter (fun fa =>
    match fa with
    | none => false
    | some n =>
        if n = "" then false
        else ! namedIn filesBefore n)

/-- The per-attempt completion test: new files appeared, or the archive was
present before and is gone now. -/
def pollDetects (filesBefore : Listing) (hasArchiveBefore : Bool)
    (archivePath : String) (filesAfter : Listing) : Bool :=
  let hasArchiveAfter := hasArchive filesAfter archivePath
  0 < (newFiles filesBefore filesAfter).length ||
    (hasArchiveBefore && !hasArchiveAfter)

/-- Outcome of the initial decompress POST. -/
inductive DecompressOutcome
  | ok
  | clientTimeout
  | remoteError (detail : String)
deriving DecidableEq, Repr

/-- Result of `extractArchive`.  `immediate`: the POST returned in time;
`detected k`: polling confirmed completion at attempt `k`;
`unconfirmed n`: the loop exhausted its `n` attempts and the function
returned normally with only a logged warning; `failed`: a thrown
`ExtractionError`. -/
inductive ExtractOutcome
  | immediate
  | detected (attempt : Nat)
  | unconfirmed (attempts : Nat)
  | failed (msg : String)
deriving DecidableEq, Repr

/-- `maxPollingAttempts`: 24 attempts of 5 minutes = 2 hours. -/
def maxPollingAttempts : Nat := 24

/-- The extended polling loop (`while (pollingAttempts < maxPollingAttempts)`),
recursing on the remaining attempts.  `polls k` is the listing obtained at
attempt `k` (1-based), `Except.error ()` when `listFiles` throws (the loop
then just continues). -/
def extractPollLoop (filesBefore : Listing) (hasArchiveBefore : Bool)
    (archivePath : String) (polls : Nat → Except Unit Listing) :
    Nat → Nat → ExtractOutcome
  | pollingAttempts, 0 => .unconfirmed pollingAttempts
  | a, remaining + 1 =>
      match polls (a + 1) with
      | .error () => extractPollLoop filesBefore hasArchiveBefore archivePath
          polls (a + 1) remaining
      | .ok filesAfter =>
          if pollDetects filesBefore hasArchiveBefore archivePath filesAfter then
            .detected (a + 1)
          else extractPollLoop filesBefore hasArchiveBefore archivePath
            polls (a + 1) remaining

/-- `extractArchive(archivePath, destination)` as a function of the outcomes
of its external calls: `beforeResult` is the initial `listFiles`
(`Except.error ()` falls back to the empty listing), `dec` the decompress
POST, `polls` the per-attempt listings. -/
def extractArchive (archivePath : String)
    (beforeResult : Except Unit Listing) (dec : DecompressOutcome)
    (polls : Nat → Except Unit Listing) : ExtractOutcome :=
  let filesBefore := match beforeResult with
    | .ok l => l
    | .error () => []
  let hasArchiveBefore := hasArchive filesBefore archivePath
  match dec with
  | .ok => .immediate
  | .remoteError detail =>
      .failed ("Impossible d'extraire " ++ archivePath ++ ": " ++ detail)
  | .clientTimeout =>
      extractPollLoop filesBefore hasArchiveBefore archivePath polls
        0 maxPollingAttempts

/-! ## SftpService.transferFileDirect (two-hop relay transfer)

`transferFileDirect(sourceService, remotePath, destinationPath, onProgress)`:
stat the source file (a stat failure propagates before the temp file is
created); compute `tempFile`; then `try { download; upload } finally
{ fs.remove(tempFile) }`; any failure is re-thrown wrapped as
`Transfert direct échoué: ...`.

The local filesystem is modelled as the list of local file paths.  The
download phase writes `tempFile` (`fastGet`); a failing download may or may
not have left a partial file (`wrotePartial`).  `fs.remove` removes
unconditionally (fs-extra's remove does not fail on a missing path). -/

/-- The local filesystem: the list of present file paths. -/
structure LocalFS where
  files : List String
deriving DecidableEq, Repr

/-- `fs.remove(p)`: the path is gone afterwards. -/
def LocalFS.remove (fs : LocalFS) (p : String) : LocalFS :=
  ⟨fs.files.filter (fun q => q ≠ p)⟩

/-- Outcome of one transfer phase (download or upload). -/
inductive PhaseOutcome
  | ok
  | fail (msg : String)
deriving DecidableEq, Repr

/-- `transferFileDirect` as a function of the outcomes of its external
calls: `statOutcome` is the source `stat` (size or thrown message),
`download`/`upload` the two phases; `wrotePartial` states whether a failing
download left a partial temp file behind.  Returns the final local
filesystem and the call result. -/
def transferFileDirect (fs : LocalFS) (tempFile : String)
    (statOutcome : Except String Nat) (download : PhaseOutcome)
    (wrotePartial : Bool) (upload : PhaseOutcome) :
    LocalFS × CallResult :=
  match statOutcome with
  | .error msg => (fs, .thrown ("Transfert direct échoué: " ++ msg))
  | .ok _ =>
      let inner : LocalFS × Except String Unit :=
        match download with
        | .fail msg =>
            (if wrotePartial then ⟨tempFile :: fs.files⟩ else fs, .error msg)
        | .ok =>
            let fsDown : LocalFS := ⟨tempFile :: fs.files⟩
            match upload with
            | .fail msg => (fsDown, .error msg)
            | .ok => (fsDown, .ok ())
      let fsFinal := inner.1.remove tempFile
      match inner.2 with
      | .ok () => (fsFinal, .success)
      | .error msg => (fsFinal, .thrown ("Transfert direct échoué: " ++ msg))

/-! ## TransferService: executeStep and the pipeline driver

`executeStep(stepIndex, stepName, operation)` (the 11-step v3.2 variant):
set the step running at 0% ("En cours..."), run the operation, on success
set it completed at 100%, on a thrown failure set it to
`error` with `Erreur: <message>` and re-throw.

A step operation may itself update the tracker (intermediate progress), so
it is modelled as a tracker transformer that also reports success or a
thrown message.  `executeTransfer` runs the operations strictly in order at
indices 0, 1, 2, ...; a re-thrown step failure reaches the surrounding
catch, which marks `getCurrentStep()` as error when one is still running,
performs the tracker-free rollback, and re-throws.

The completed-step message in the source carries the measured duration
(`Terminé (<n>s)`); durations are not modelled, so the message is kept as
its constant prefix. -/

/-- A step operation: may mutate the tracker and either return or throw. -/
abbrev StepOp := ProgressTracker → ProgressTracker × Except String Unit

/-- `executeStep`: running/0% before, completed/100% after, error plus
re-throw on failure. -/
def executeStep (t : ProgressTracker) (stepIndex : Int) (op : StepOp)
    (now : Nat) : ProgressTracker × Except String Unit :=
  let t1 := t.updateStep stepIndex .running "En cours..." 0 now
  let res := op t1
  match res.2 with
  | .ok () => (res.1.updateStep stepIndex .completed "Terminé" 100 now, .ok ())
  | .error msg =>
      (res.1.updateStep stepIndex .error ("Erreur: " ++ msg) 0 now, .error msg)

/-- The sequential `await executeStep(i, ...)` chain starting at index `i`:
a failure short-circuits (the exception propagates, no later step runs). -/
def runSteps (t : ProgressTracker) (ops : List StepOp) (i : Nat) (now : Nat) :
    ProgressTracker × Except String Unit :=
  match ops with
  | [] => (t, .ok ())
  | op :: rest =>
      let r := executeStep t (i : Int) op now
      match r.2 with
      | .ok () => runSteps r.1 rest (i + 1) now
      | .error msg => (r.1, .error msg)

/-- `executeTransfer`: fresh 11-step tracker, run the steps in order; on a
thrown failure, the catch marks the still-running step (if any) as error
and re-throws after the rollback (which does not touch the tracker). -/
def executeTransfer (ops : List StepOp) (now : Nat) :
    ProgressTracker × Except String Unit :=
  let t0 := ProgressTracker.new now
  let r := runSteps t0 ops 0 now
  match r.2 with
  | .ok () => (r.1, .ok ())
  | .error msg =>
      let currentStep := r.1.getCurrentStep
      let t2 :=
        if 0 ≤ currentStep then
          r.1.updateStep currentStep .error ("Erreur: " ++ msg) 0 now
        else r.1
      (t2, .error msg)

/-- A step operation is *status-preserving* when it keeps the step count and
every step's status (the source's operations only re-write the running
step's message and progress, always with status `'running'`). -/
def opTame (op : StepOp) : Prop :=
  ∀ t : ProgressTracker,
    ((op t).1).steps.length = t.steps.length ∧
    ∀ j : Nat, statusAt (op t).1 j = statusAt t j

/-! ## Helper lemmas -/

theorem get?_set' {α : Type} (a : α) :
    ∀ (l : List α) (i j : Nat),
    (l.set i a).get? j = if i = j ∧ j < l.length then some a else l.get? j := by
  intro l
  induction l with
  | nil => intro i j; simp
  | cons b l ih =>
      intro i j
      cases i with
      | zero =>
          cases j with
          | zero => simp
          | succ j => simp
      | succ i =>
          cases j with
          | zero => simp
          | succ j =>
              simp only [List.set, List.get?, List.length_cons, ih]
              by_cases h : i = j ∧ j < l.length
              · rw [if_pos h, if_pos ⟨by omega, by omega⟩]
              · rw [if_neg h, if_neg (by omega)]

theorem updateStep_length (t : ProgressTracker) (i : Int) (st : StepStatus)
    (msg : String) (p : Nat) (now : Nat) :
    (t.updateStep i st msg p now).steps.length = t.steps.length := by
  unfold ProgressTracker.updateStep
  by_cases h : i < 0
  · rw [if_pos h]
  · rw [if_neg h]
    cases hget : t.steps.get? i.toNat with
    | none => rfl
    | some s => simp

theorem updateStep_get? (t : ProgressTracker) (i : Nat) (st : StepStatus)
    (msg : String) (p : Nat) (now : Nat) (j : Nat) :
    (t.updateStep (i : Int) st msg p now).steps.get? j
      = if i = j ∧ j < t.steps.length then
          (t.steps.get? j).map (fun s0 =>
            { s0 with status := st, message := msg,
                      progress := p, timestamp := now })
        else t.steps.get? j := by
  unfold ProgressTracker.updateStep
  rw [if_neg (by omega)]
  have htoNat : (i : Int).toNat = i := rfl
  cases hget : t.steps.get? ((i : Int)).toNat with
  | none =>
      have hlen : t.steps.length ≤ i := by
        rw [htoNat] at hget
        exact List.get?_eq_none.mp hget
      rw [if_neg (by omega)]
  | some s =>
      rw [htoNat] at hget
      simp only [htoNat, get?_set']
      by_cases h : i = j ∧ j < t.steps.length
      · rw [if_pos h, if_pos h]
        rcases h with ⟨hij, _⟩
        subst hij
        rw [hget]
        rfl
      · rw [if_neg h, if_neg h]

theorem updateStep_statusAt (t : ProgressTracker) (i : Nat) (st : StepStatus)
    (msg : String) (p : Nat) (now : Nat) (j : Nat) :
    statusAt (t.updateStep (i : Int) st msg p now) j
      = if i = j ∧ j < t.steps.length then some st else statusAt t j := by
  unfold statusAt
  rw [updateStep_get?]
  by_cases h : i = j ∧ j < t.steps.length
  · rw [if_pos h, if_pos h]
    have hs0 : t.steps.get? j = some (t.steps.get ⟨j, h.2⟩) :=
      List.get?_eq_get h.2
    rw [hs0]
    rfl
  · rw [if_neg h, if_neg h]

theorem updateStep_messageAt (t : ProgressTracker) (i : Nat) (st : StepStatus)
    (msg : String) (p : Nat) (now : Nat) (j : Nat) :
    messageAt (t.updateStep (i : Int) st msg p now) j
      = if i = j ∧ j < t.steps.length then some msg else messageAt t j := by
  unfold messageAt
  rw [updateStep_get?]
  by_cases h : i = j ∧ j < t.steps.length
  · rw [if_pos h, if_pos h]
    have hs0 : t.steps.get? j = some (t.steps.get ⟨j, h.2⟩) :=
      List.get?_eq_get h.2
    rw [hs0]
    rfl
  · rw [if_neg h, if_neg h]

theorem new_length (now : Nat) : (ProgressTracker.new now).steps.length = 11 := by
  rfl

theorem new_statusAt (now : Nat) (j : Nat) (hj : j < 11) :
    statusAt (ProgressTracker.new now) j = some .pending := by
  interval_cases j <;> rfl

/-! ## Claim theorems -/

/-- C3: every non-timeout failure of the decompress request makes
`extractArchive` throw the wrapped extraction error immediately, and the
result does not depend on the polling listings at all (the polling loop is
never entered). -/
theorem extractArchive_remote_rejection (archivePath detail : String)
    (beforeResult : Except Unit Listing)
    (polls polls' : Nat → Except Unit Listing) :
    extractArchive archivePath beforeResult (.remoteError detail) polls
      = .failed ("Impossible d'extraire " ++ archivePath ++ ": " ++ detail) ∧
    extractArchive archivePath beforeResult (.remoteError detail) polls
      = extractArchive archivePath beforeResult (.remoteError detail) polls' :=
  ⟨rfl, rfl⟩

/-- C5: `setPowerState` is idempotent at the error boundary: for every
action, a 409 conflict response is treated as success, any other request
failure throws; in particular `stop` on an already-stopped host (the panel
answers 409) does not throw. -/
theorem setPowerState_conflict_is_success :
    (∀ (action : PowerAction) (detail : String),
      setPowerState action (.failure (some 409) detail) = .success) ∧
    (∀ (action : PowerAction) (status : Option Nat) (detail : String),
      status ≠ some 409 →
      setPowerState action (.failure status detail)
        = .thrown ("Impossible de " ++ action.name ++ " le serveur: " ++ detail)) ∧
    (∀ detail, setPowerState .stop (.failure (some 409) detail) = .success) := by
  refine ⟨fun action detail => ?_, fun action status detail h => ?_,
    fun detail => ?_⟩
  · simp [setPowerState]
  · simp [setPowerState, h]
  · simp [setPowerState]

/-- Witness for C5 at concrete inputs: a 409 on `stop` succeeds, a 500 on
`start` throws. -/
theorem setPowerState_conflict_is_success_witness :
    setPowerState .stop (.failure (some 409) "conflict") = .success ∧
    setPowerState .start (.failure (some 500) "boom")
      = .thrown ("Impossible de " ++ PowerAction.name .start ++
          " le serveur: " ++ "boom") :=
  ⟨setPowerState_conflict_is_success.1 .stop "conflict",
   setPowerState_conflict_is_success.2.1 .start (some 500) "boom" (by decide)⟩

/-- C7: after `transferFileDirect` returns — whether both phases succeeded,
the download threw, or the upload threw — the freshly named local temp
staging file is absent from the local filesystem. -/
theorem transferFileDirect_temp_removed (fs : LocalFS) (tempFile : String)
    (statOutcome : Except String Nat) (download : PhaseOutcome)
    (wrotePartial : Bool) (upload : PhaseOutcome)
    (hfresh : tempFile ∉ fs.files) :
    tempFile ∉
      ((transferFileDirect fs tempFile statOutcome download wrotePartial
        upload).1).files := by
  have hremove : ∀ g : LocalFS, tempFile ∉ (g.remove tempFile).files := by
    intro g hmem
    simp [LocalFS.remove, List.mem_filter] at hmem
  cases statOutcome with
  | error msg => exact hfresh
  | ok sz =>
      cases download with
      | fail msg =>
          cases wrotePartial <;> simp only [transferFileDirect] <;>
            exact hremove _
      | ok =>
          cases upload with
          | fail msg => exact hremove _
          | ok => exact hremove _

/-- Witness for C7: with a one-file filesystem and a failing upload phase,
the temp file is absent afterwards. -/
theorem transferFileDirect_temp_removed_witness :
    "/tmp/transfer_1_w.tar.gz" ∉
      ((transferFileDirect ⟨["keep.txt"]⟩ "/tmp/transfer_1_w.tar.gz"
        (.ok 512) .ok false (.fail "upload failed")).1).files :=
  transferFileDirect_temp_removed ⟨["keep.txt"]⟩ "/tmp/transfer_1_w.tar.gz"
    (.ok 512) .ok false (.fail "upload failed") (by decide)

/-- C9: over a non-empty step list, `isCompleted()` holds iff every step is
completed, `hasErrors()` holds iff some step is in error, and the two are
never both true. -/
theorem isCompleted_hasErrors_spec (t : ProgressTracker)
    (_hne : t.steps ≠ []) :
    (t.isCompleted = true ↔ ∀ s ∈ t.steps, s.status = .completed) ∧
    (t.hasErrors = true ↔ ∃ s ∈ t.steps, s.status = .error) ∧
    ¬(t.isCompleted = true ∧ t.hasErrors = true) := by
  refine ⟨?_, ?_, ?_⟩
  · simp [ProgressTracker.isCompleted, List.all_eq_true]
  · simp [ProgressTracker.hasErrors, List.any_eq_true]
  · rintro ⟨hall, herr⟩
    simp [ProgressTracker.isCompleted, List.all_eq_true] at hall
    simp [ProgressTracker.hasErrors, List.any_eq_true] at herr
    rcases herr with ⟨s, hs, hstat⟩
    have := hall s hs
    rw [hstat] at this
    cases this

/-- Witness for C9 on the freshly initialized 11-step tracker (all
pending: not completed, no errors, and not both). -/
theorem isCompleted_hasErrors_spec_witness :
    ((ProgressTracker.new 0).isCompleted = true ↔
      ∀ s ∈ (ProgressTracker.new 0).steps, s.status = .completed) ∧
    ((ProgressTracker.new 0).hasErrors = true ↔
      ∃ s ∈ (ProgressTracker.new 0).steps, s.status = .error) ∧
    ¬((ProgressTracker.new 0).isCompleted = true ∧
      (ProgressTracker.new 0).hasErrors = true) :=
  isCompleted_hasErrors_spec (ProgressTracker.new 0) (by decide)

/-- C10: an out-of-range index (negative or ≥ the step count) makes
`updateStep` a total no-op; no update ever changes the number of steps; and
construction fixes the count at 11. -/
theorem updateStep_out_of_range_noop :
    (∀ now, (ProgressTracker.new now).steps.length = 11) ∧
    (∀ (t : ProgressTracker) (i : Int) (st : StepStatus) (msg : String)
      (p now : Nat),
      (i < 0 ∨ (t.steps.length : Int) ≤ i) →
      t.updateStep i st msg p now = t) ∧
    (∀ (t : ProgressTracker) (i : Int) (st : StepStatus) (msg : String)
      (p now : Nat),
      (t.updateStep i st msg p now).steps.length = t.steps.length) := by
  refine ⟨new_length, ?_, fun t i st msg p now => updateStep_length t i st msg p now⟩
  intro t i st msg p now h
  unfold ProgressTracker.updateStep
  by_cases hneg : i < 0
  · rw [if_pos hneg]
  · rw [if_neg hneg]
    have hlen : t.steps.length ≤ i.toNat := by omega
    rw [List.get?_eq_none.mpr hlen]

/-- Witness for C10: on the fresh tracker, updating index 11 or −1 changes
nothing. -/
theorem updateStep_out_of_range_noop_witness :
    (ProgressTracker.new 0).updateStep 11 .running "x" 5 1
      = ProgressTracker.new 0 ∧
    (ProgressTracker.new 0).updateStep (-1) .error "y" 0 2
      = ProgressTracker.new 0 :=
  ⟨updateStep_out_of_range_noop.2.1 (ProgressTracker.new 0) 11 .running "x" 5 1
    (by right; rw [new_length]; decide),
   updateStep_out_of_range_noop.2.1 (ProgressTracker.new 0) (-1) .error "y" 0 2
    (by left; decide)⟩

/-- C8: on any tracker state with a positive step count, at most one
running step, `k` completed steps and the running step (if any) at `p`%,
`getOverallProgress()` equals the specification formula
`round(((k + p/100) / N) * 100)`, with `p = 0` when no step runs. -/
theorem getOverallProgress_spec (t : ProgressTracker) (k p : Nat)
    (_hN : 0 < t.steps.length)
    (_huniq : (t.steps.filter (fun s => s.status = .running)).length ≤ 1)
    (hk : (t.steps.filter (fun s => s.status = .completed)).length = k)
    (hp : match t.steps.findIdx? (fun s => s.status = .running) with
          | some i => ((t.steps.get? i).map (·.progress)).getD 0 = p
          | none => p = 0) :
    t.getOverallProgress = specOverallProgress t.steps.length k p := by
  unfold ProgressTracker.getOverallProgress specOverallProgress
    ProgressTracker.getCurrentStep
  cases hidx : t.steps.findIdx? (fun s => s.status = .running) with
  | none =>
      rw [hidx] at hp
      subst hp
      simp [hk]
  | some i =>
      rw [hidx] at hp
      subst hp
      simp [hk]

/-- Witness for C8: 4 steps, 2 completed, 1 running at 50%, 1 pending. -/
theorem getOverallProgress_spec_witness :
    (ProgressTracker.mk
      [⟨"a", 100, .completed, "ok", 0⟩, ⟨"b", 100, .completed, "ok", 0⟩,
       ⟨"c", 50, .running, "going", 0⟩, ⟨"d", 0, .pending, "wait", 0⟩]
      ).getOverallProgress
      = specOverallProgress 4 2 50 :=
  getOverallProgress_spec _ 2 50 (by decide) (by decide) (by decide)
    (by simp [List.findIdx?])

/-- Every named, nonempty entry of `after` already occurs in `before` ⇒ the
`newFiles` filter is empty. -/
theorem newFiles_of_subset (before after : Listing)
    (h : ∀ e ∈ after, e ∈ before) : newFiles before after = [] := by
  unfold newFiles
  rw [List.filter_eq_nil_iff]
  intro fa hfa
  cases fa with
  | none => simp
  | some n =>
      by_cases hn : n = ""
      · simp [hn]
      · simp only [hn, if_false, Bool.not_eq_true', Bool.not_eq_false]
        exact List.any_eq_true.mpr ⟨some n, h _ hfa, by simp⟩

/-- When `after` adds nothing to `before` and the archive did not
disappear, the per-attempt completion test fails. -/
theorem pollDetects_false_of (before after : Listing) (ap : String)
    (hsub : ∀ e ∈ after, e ∈ before)
    (harch : hasArchive before ap = true → hasArchive after ap = true) :
    pollDetects before (hasArchive before ap) ap after = false := by
  unfold pollDetects
  rw [newFiles_of_subset before after hsub]
  cases hb : hasArchive before ap with
  | false => simp
  | true => simp [harch hb]

/-- When no admitted attempt detects completion, the polling loop runs to
exhaustion and reports all its attempts consumed. -/
theorem extractPollLoop_no_detect (fb : Listing) (hab : Bool) (ap : String)
    (polls : Nat → Except Unit Listing) :
    ∀ (fuel a : Nat),
    (∀ k, a < k → k ≤ a + fuel →
      ∀ after, polls k = .ok after → pollDetects fb hab ap after = false) →
    extractPollLoop fb hab ap polls a fuel = .unconfirmed (a + fuel) := by
  intro fuel
  induction fuel with
  | zero => intro a _; rfl
  | succ n ih =>
      intro a h
      show (match polls (a + 1) with
        | .error () => extractPollLoop fb hab ap polls (a + 1) n
        | .ok filesAfter =>
            if pollDetects fb hab ap filesAfter then .detected (a + 1)
            else extractPollLoop fb hab ap polls (a + 1) n)
        = ExtractOutcome.unconfirmed (a + (n + 1))
      cases hpoll : polls (a + 1) with
      | error e =>
          cases e
          show extractPollLoop fb hab ap polls (a + 1) n
            = ExtractOutcome.unconfirmed (a + (n + 1))
          rw [ih (a + 1) (fun k h1 h2 after hk =>
            h k (by omega) (by omega) after hk)]
          congr 1
          omega
      | ok after =>
          show (if pollDetects fb hab ap after = true then
              ExtractOutcome.detected (a + 1)
            else extractPollLoop fb hab ap polls (a + 1) n)
            = ExtractOutcome.unconfirmed (a + (n + 1))
          rw [h (a + 1) (by omega) (by omega) after hpoll]
          rw [if_neg (by simp)]
          rw [ih (a + 1) (fun k h1 h2 aft hk =>
            h k (by omega) (by omega) aft hk)]
          congr 1
          omega

/-- C1: when the initial decompress request fails with a client-side
timeout and, for all 24 polling attempts, the destination listing succeeds,
shows no entry absent from the Before snapshot, and still shows the archive
whenever Before did, `extractArchive` returns normally after consuming all
24 polling intervals, reporting only the unconfirmed warning. -/
theorem extractArchive_timeout_unconfirmed (archivePath : String)
    (filesBefore : Listing) (polls : Nat → Except Unit Listing)
    (h : ∀ k, 1 ≤ k → k ≤ maxPollingAttempts → ∃ after,
      polls k = .ok after ∧
      (∀ e ∈ after, e ∈ filesBefore) ∧
      (hasArchive filesBefore archivePath = true →
        hasArchive after archivePath = true)) :
    extractArchive archivePath (.ok filesBefore) .clientTimeout polls
      = .unconfirmed maxPollingAttempts := by
  show extractPollLoop filesBefore (hasArchive filesBefore archivePath)
      archivePath polls 0 maxPollingAttempts
    = .unconfirmed maxPollingAttempts
  have hno : ∀ k, 0 < k → k ≤ 0 + maxPollingAttempts → ∀ after,
      polls k = .ok after →
      pollDetects filesBefore (hasArchive filesBefore archivePath)
        archivePath after = false := by
    intro k h1 h2 after hk
    rcases h k (by omega) (by omega) with ⟨after', hpoll, hsub, harch⟩
    rw [hk] at hpoll
    cases hpoll
    exact pollDetects_false_of filesBefore after archivePath hsub harch
  rw [extractPollLoop_no_detect filesBefore
    (hasArchive filesBefore archivePath) archivePath polls maxPollingAttempts 0
    hno]
  rfl

/-- Witness for C1: Before = After = `{a}` at every attempt ⇒ unconfirmed
after 24 attempts. -/
theorem extractArchive_timeout_unconfirmed_witness :
    extractArchive "world.tar.gz" (.ok [some "a"]) .clientTimeout
      (fun _ => .ok [some "a"]) = .unconfirmed 24 :=
  extractArchive_timeout_unconfirmed "world.tar.gz" [some "a"]
    (fun _ => .ok [some "a"])
    (fun k _ _ => ⟨[some "a"], rfl, by decide, by decide⟩)

/-- `namedIn` tests exactly membership of `some n`. -/
theorem namedIn_iff (files : Listing) (n : String) :
    namedIn files n = true ↔ some n ∈ files := by
  unfold namedIn
  rw [List.any_eq_true]
  constructor
  · rintro ⟨fb, hmem, hp⟩
    cases fb with
    | none => simp at hp
    | some m =>
        simp only [decide_eq_true_eq] at hp
        subst hp
        exact hmem
  · intro hmem
    exact ⟨some n, hmem, by simp⟩

/-- The `newFiles` list is non-empty exactly when the destination listing
gained a named, non-empty entry absent from the Before snapshot. -/
theorem newFiles_pos_iff (before after : Listing) :
    0 < (newFiles before after).length ↔
      ∃ n : String, n ≠ "" ∧ some n ∈ after ∧ some n ∉ before := by
  constructor
  · intro h
    have hne : newFiles before after ≠ [] := by
      intro hnil
      rw [hnil] at h
      simp at h
    rcases List.exists_mem_of_ne_nil _ hne with ⟨fa, hfa⟩
    have hfa' := hfa
    unfold newFiles at hfa'
    rw [List.mem_filter] at hfa'
    obtain ⟨hmem, hp⟩ := hfa'
    cases fa with
    | none => simp at hp
    | some n =>
        have hp' : (if n = "" then false else ! namedIn before n) = true := hp
        by_cases hn : n = ""
        · rw [if_pos hn] at hp'
          cases hp'
        · refine ⟨n, hn, hmem, ?_⟩
          intro hin
          rw [if_neg hn, Bool.not_eq_true'] at hp'
          have htrue := (namedIn_iff before n).mpr hin
          rw [htrue] at hp'
          cases hp'
  · rintro ⟨n, hn, hin, hnot⟩
    have hmem : (some n) ∈ newFiles before after := by
      unfold newFiles
      rw [List.mem_filter]
      refine ⟨hin, ?_⟩
      show (if n = "" then false else ! namedIn before n) = true
      rw [if_neg hn, Bool.not_eq_true']
      cases hni : namedIn before n with
      | false => rfl
      | true => exact absurd ((namedIn_iff before n).mp hni) hnot
    exact List.length_pos.mpr (List.ne_nil_of_mem hmem)

/-- The per-attempt completion test, spelled out: new named content
appeared, or the archive was present before and is gone. -/
theorem pollDetects_true_iff (before after : Listing) (hab : Bool)
    (ap : String) :
    pollDetects before hab ap after = true ↔
      (∃ n : String, n ≠ "" ∧ some n ∈ after ∧ some n ∉ before) ∨
      (hab = true ∧ hasArchive after ap = false) := by
  unfold pollDetects
  simp only [Bool.or_eq_true, Bool.and_eq_true, Bool.not_eq_true',
    decide_eq_true_eq]
  rw [newFiles_pos_iff]

/-- The polling loop stops with success at the first detecting attempt. -/
theorem extractPollLoop_first_detect (fb : Listing) (hab : Bool) (ap : String)
    (polls : Nat → Except Unit Listing) (k : Nat) (after : Listing)
    (hpoll : polls k = .ok after)
    (hdet : pollDetects fb hab ap after = true) :
    ∀ (fuel a : Nat), a < k → k ≤ a + fuel →
    (∀ j, a < j → j < k → ∀ aft, polls j = .ok aft →
      pollDetects fb hab ap aft = false) →
    extractPollLoop fb hab ap polls a fuel = .detected k := by
  intro fuel
  induction fuel with
  | zero => intro a h1 h2 _; omega
  | succ n ih =>
      intro a h1 h2 hbefore
      show (match polls (a + 1) with
        | .error () => extractPollLoop fb hab ap polls (a + 1) n
        | .ok filesAfter =>
            if pollDetects fb hab ap filesAfter then
              ExtractOutcome.detected (a + 1)
            else extractPollLoop fb hab ap polls (a + 1) n)
        = ExtractOutcome.detected k
      by_cases hak : a + 1 = k
      · subst hak
        rw [hpoll]
        show (if pollDetects fb hab ap after = true then
            ExtractOutcome.detected (a + 1)
          else extractPollLoop fb hab ap polls (a + 1) n)
          = ExtractOutcome.detected (a + 1)
        rw [hdet]
        rw [if_pos rfl]
      · cases hpoll2 : polls (a + 1) with
        | error e =>
            cases e
            show extractPollLoop fb hab ap polls (a + 1) n
              = ExtractOutcome.detected k
            exact ih (a + 1) (by omega) (by omega)
              (fun j hj1 hj2 aft hja => hbefore j (by omega) hj2 aft hja)
        | ok aft =>
            show (if pollDetects fb hab ap aft = true then
                ExtractOutcome.detected (a + 1)
              else extractPollLoop fb hab ap polls (a + 1) n)
              = ExtractOutcome.detected k
            rw [hbefore (a + 1) (by omega) (by omega) aft hpoll2]
            rw [if_neg (by simp)]
            exact ih (a + 1) (by omega) (by omega)
              (fun j hj1 hj2 aft2 hja => hbefore j (by omega) hj2 aft2 hja)

/-- C2: after a client-side timeout of the decompress request, the first
polling attempt whose listing either gained a named entry absent from the
Before snapshot or lost the archive that Before contained makes
`extractArchive` return success at that very attempt, not at the 24-attempt
ceiling. -/
theorem extractArchive_detected_at_first (archivePath : String)
    (filesBefore : Listing) (polls : Nat → Except Unit Listing)
    (k : Nat) (after : Listing)
    (hk1 : 1 ≤ k) (hk2 : k ≤ maxPollingAttempts)
    (hpoll : polls k = .ok after)
    (hcond : (∃ n : String, n ≠ "" ∧ some n ∈ after ∧ some n ∉ filesBefore) ∨
      (hasArchive filesBefore archivePath = true ∧
        hasArchive after archivePath = false))
    (hbefore : ∀ j, 1 ≤ j → j < k → ∀ aft, polls j = .ok aft →
      ¬((∃ n : String, n ≠ "" ∧ some n ∈ aft ∧ some n ∉ filesBefore) ∨
        (hasArchive filesBefore archivePath = true ∧
          hasArchive aft archivePath = false))) :
    extractArchive archivePath (.ok filesBefore) .clientTimeout polls
      = .detected k := by
  show extractPollLoop filesBefore (hasArchive filesBefore archivePath)
      archivePath polls 0 maxPollingAttempts
    = .detected k
  apply extractPollLoop_first_detect filesBefore
    (hasArchive filesBefore archivePath) archivePath polls k after hpoll
    ((pollDetects_true_iff filesBefore after
      (hasArchive filesBefore archivePath) archivePath).mpr hcond)
    maxPollingAttempts 0 (by omega) (by omega)
  intro j hj1 hj2 aft hja
  cases hb : pollDetects filesBefore (hasArchive filesBefore archivePath)
      archivePath aft with
  | false => rfl
  | true =>
      exact absurd ((pollDetects_true_iff filesBefore aft
        (hasArchive filesBefore archivePath) archivePath).mp hb)
        (hbefore j (by omega) hj2 aft hja)

/-- Witness for C2, the spec's vector: Before = `{a, b}`, first After =
`{a, b, c}` ⇒ success detected at attempt 1. -/
theorem extractArchive_detected_at_first_witness :
    extractArchive "world.tar.gz" (.ok [some "a", some "b"]) .clientTimeout
      (fun _ => .ok [some "a", some "b", some "c"]) = .detected 1 :=
  extractArchive_detected_at_first "world.tar.gz" [some "a", some "b"]
    (fun _ => .ok [some "a", some "b", some "c"]) 1
    [some "a", some "b", some "c"]
    (by decide) (by decide) rfl
    (Or.inl ⟨"c", by decide, by decide, by decide⟩)
    (fun j hj1 hj2 aft hja => absurd hj2 (by omega))

/-- The state `lastState` holds when the wait loop of `waitForServerState`
exhausts `fuel` further iterations from attempt counter `a`. -/
def lastObserved (query : Nat → Option String) (a : Nat) (fuel : Nat)
    (last : String) : String :=
  match fuel with
  | 0 => last
  | f + 1 => (query (a + f + 1)).getD "unknown"

/-- The wait loop ends in a thrown timeout carrying the last observed state
when no iteration matches the target, no API-inaccessible iteration
triggers the assumed-offline interpretation, and the permissive post-loop
offline return does not apply. -/
theorem waitLoop_timeout (target : String) (query : Nat → Option String) :
    ∀ (fuel a : Nat) (last : String),
    (∀ k, a < k → k ≤ a + fuel → (query k).getD "unknown" ≠ target) →
    (∀ k, a < k → k ≤ a + fuel → query k = none →
      ¬(target = "offline" ∧ 5 < k)) →
    ¬(target = "offline" ∧ 10 ≤ a + fuel) →
    waitLoop target query a last fuel
      = .timeoutError (lastObserved query a fuel last) := by
  intro fuel
  induction fuel with
  | zero =>
      intro a last _ _ hopt
      show (if target = "offline" ∧ 10 ≤ a then WaitResult.optimistic last
        else WaitResult.timeoutError last) = _
      rw [if_neg (by simpa using hopt)]
      rfl
  | succ n ih =>
      intro a last hmatch hdown hopt
      show (if (query (a + 1)).getD "unknown" = target then
          WaitResult.matched (a + 1)
        else if ¬(query (a + 1)).isSome ∧ target = "offline" ∧ 5 < a + 1 then
          WaitResult.assumedOffline (a + 1)
        else waitLoop target query (a + 1) ((query (a + 1)).getD "unknown") n)
        = _
      rw [if_neg (hmatch (a + 1) (by omega) (by omega))]
      rw [if_neg ?notdown]
      case notdown =>
        rintro ⟨hw, hoff, hgt⟩
        exact hdown (a + 1) (by omega) (by omega)
          (Option.not_isSome_iff_eq_none.mp hw) ⟨hoff, hgt⟩
      rw [ih (a + 1) ((query (a + 1)).getD "unknown")
        (fun k hk1 hk2 => hmatch k (by omega) (by omega))
        (fun k hk1 hk2 hq => hdown k (by omega) (by omega) hq)
        (by intro hx; exact hopt ⟨hx.1, by omega⟩)]
      cases n with
      | zero => rfl
      | succ m =>
          show WaitResult.timeoutError ((query (a + 1 + m + 1)).getD "unknown")
            = WaitResult.timeoutError ((query (a + (m + 1) + 1)).getD "unknown")
          have : a + 1 + m + 1 = a + (m + 1) + 1 := by omega
          rw [this]

/-- C4: an invocation of `waitForServerState` in which, over all the
admitted polling iterations, the observed state never equals the target, no
API-inaccessible iteration triggers the assumed-offline interpretation
(the only way a transient error class can read as "host is down" here), and
the permissive post-loop offline fallback does not apply, throws the
timeout error carrying the last observed state. -/
theorem waitForServerState_timeout_error (target : String)
    (query : Nat → Option String) (n : Nat) (hn : 1 ≤ n)
    (hmatch : ∀ k, 1 ≤ k → k ≤ n → (query k).getD "unknown" ≠ target)
    (hdown : ∀ k, 1 ≤ k → k ≤ n → query k = none →
      ¬(target = "offline" ∧ 5 < k))
    (hopt : ¬(target = "offline" ∧ 10 ≤ n)) :
    waitForServerState target query n
      = .timeoutError ((query n).getD "unknown") := by
  unfold waitForServerState
  rw [waitLoop_timeout target query n 0 "unknown"
    (fun k hk1 hk2 => hmatch k (by omega) (by simpa using hk2))
    (fun k hk1 hk2 hq => hdown k (by omega) (by simpa using hk2) hq)
    (by intro hx; exact hopt ⟨hx.1, by simpa using hx.2⟩)]
  cases n with
  | zero => omega
  | succ m =>
      show WaitResult.timeoutError ((query (0 + m + 1)).getD "unknown") = _
      have : 0 + m + 1 = m + 1 := by omega
      rw [this]

/-- Witness for C4: awaiting `running` with the state stuck at `starting`
for both admitted iterations ⇒ timeout error carrying `starting`. -/
theorem waitForServerState_timeout_error_witness :
    waitForServerState "running" (fun _ => some "starting") 2
      = .timeoutError "starting" :=
  waitForServerState_timeout_error "running" (fun _ => some "starting") 2
    (by decide)
    (fun _ _ _ => (by decide : ¬("starting" = "running")))
    (fun _ _ _ hq => by simp at hq)
    (by decide)

/-! ## The pipeline invariant for C6 -/

/-- Tracker shape after the first `s` steps succeeded: 11 steps, the first
`s` completed, the rest pending. -/
def prefixDone (t : ProgressTracker) (s : Nat) : Prop :=
  t.steps.length = 11 ∧
  (∀ j, j < s → statusAt t j = some .completed) ∧
  (∀ j, s ≤ j → j < 11 → statusAt t j = some .pending)

theorem statusAt_none (t : ProgressTracker) (j : Nat)
    (h : t.steps.length ≤ j) : statusAt t j = none := by
  unfold statusAt
  rw [List.get?_eq_none.mpr h]
  rfl

theorem prefixDone_new (now : Nat) : prefixDone (ProgressTracker.new now) 0 :=
  ⟨new_length now, fun j hj => absurd hj (by omega),
   fun j _ hj => new_statusAt now j hj⟩

/-- A successful status-preserving step operation advances the invariant by
one completed step. -/
theorem executeStep_ok (t : ProgressTracker) (s : Nat) (op : StepOp)
    (now : Nat) (htame : opTame op) (hok : ∀ t', (op t').2 = .ok ())
    (hs : s < 11) (hpre : prefixDone t s) :
    (executeStep t (s : Int) op now).2 = .ok () ∧
    prefixDone (executeStep t (s : Int) op now).1 (s + 1) := by
  obtain ⟨hlen, hdone, hpend⟩ := hpre
  have hstep : executeStep t (s : Int) op now
      = ((op (t.updateStep (s : Int) .running "En cours..." 0 now)).1.updateStep
          (s : Int) .completed "Terminé" 100 now, .ok ()) := by
    show (match (op (t.updateStep (s : Int) .running "En cours..." 0 now)).2 with
      | .ok () =>
          ((op (t.updateStep (s : Int) .running "En cours..." 0 now)).1.updateStep
            (s : Int) .completed "Terminé" 100 now, Except.ok ())
      | .error m =>
          ((op (t.updateStep (s : Int) .running "En cours..." 0 now)).1.updateStep
            (s : Int) .error ("Erreur: " ++ m) 0 now, Except.error m))
      = _
    rw [hok _]
  rw [hstep]
  set t1 := t.updateStep (s : Int) .running "En cours..." 0 now with ht1
  have hlen1 : t1.steps.length = 11 := by
    rw [ht1, updateStep_length, hlen]
  have hlen2 : ((op t1).1).steps.length = 11 := by
    rw [(htame t1).1, hlen1]
  refine ⟨rfl, ?_, ?_, ?_⟩
  · rw [updateStep_length, hlen2]
  · intro j hj
    rw [updateStep_statusAt, hlen2]
    by_cases hsj : s = j
    · rw [if_pos ⟨hsj, by omega⟩]
    · rw [if_neg (by tauto), (htame t1).2 j, ht1, updateStep_statusAt, hlen,
        if_neg (by tauto)]
      exact hdone j (by omega)
  · intro j hj1 hj2
    rw [updateStep_statusAt, hlen2, if_neg (by omega),
      (htame t1).2 j, ht1, updateStep_statusAt, hlen, if_neg (by omega)]
    exact hpend j (by omega) hj2

/-- A failing status-preserving step operation marks its own step as error
with the cause's message, leaves earlier steps completed and later steps
pending, re-raises, and leaves no step running. -/
theorem executeStep_fail (t : ProgressTracker) (s : Nat) (op : StepOp)
    (now : Nat) (msg : String)
    (htame : opTame op) (hfail : ∀ t', (op t').2 = .error msg)
    (hs : s < 11) (hpre : prefixDone t s) :
    (executeStep t (s : Int) op now).2 = .error msg ∧
    (executeStep t (s : Int) op now).1.steps.length = 11 ∧
    (∀ j, j < s →
      statusAt (executeStep t (s : Int) op now).1 j = some .completed) ∧
    statusAt (executeStep t (s : Int) op now).1 s = some .error ∧
    messageAt (executeStep t (s : Int) op now).1 s
      = some ("Erreur: " ++ msg) ∧
    (∀ j, s < j → j < 11 →
      statusAt (executeStep t (s : Int) op now).1 j = some .pending) ∧
    (∀ j, statusAt (executeStep t (s : Int) op now).1 j ≠ some .running) := by
  obtain ⟨hlen, hdone, hpend⟩ := hpre
  have hstep : executeStep t (s : Int) op now
      = ((op (t.updateStep (s : Int) .running "En cours..." 0 now)).1.updateStep
          (s : Int) .error ("Erreur: " ++ msg) 0 now, .error msg) := by
    show (match (op (t.updateStep (s : Int) .running "En cours..." 0 now)).2 with
      | .ok () =>
          ((op (t.updateStep (s : Int) .running "En cours..." 0 now)).1.updateStep
            (s : Int) .completed "Terminé" 100 now, Except.ok ())
      | .error m =>
          ((op (t.updateStep (s : Int) .running "En cours..." 0 now)).1.updateStep
            (s : Int) .error ("Erreur: " ++ m) 0 now, Except.error m))
      = _
    rw [hfail _]
  rw [hstep]
  set t1 := t.updateStep (s : Int) .running "En cours..." 0 now with ht1
  have hlen1 : t1.steps.length = 11 := by
    rw [ht1, updateStep_length, hlen]
  have hlen2 : ((op t1).1).steps.length = 11 := by
    rw [(htame t1).1, hlen1]
  have hst : ∀ j, statusAt ((op t1).1.updateStep (s : Int) .error
      ("Erreur: " ++ msg) 0 now) j
      = if s = j ∧ j < 11 then some .error else statusAt t j := by
    intro j
    rw [updateStep_statusAt, hlen2]
    by_cases hsj : s = j ∧ j < 11
    · rw [if_pos hsj, if_pos hsj]
    · rw [if_neg hsj, (htame t1).2 j, ht1, updateStep_statusAt, hlen,
        if_neg hsj, if_neg hsj]
  refine ⟨rfl, ?_, ?_, ?_, ?_, ?_, ?_⟩
  · rw [updateStep_length, hlen2]
  · intro j hj
    rw [hst j, if_neg (by omega)]
    exact hdone j hj
  · rw [hst s, if_pos ⟨rfl, hs⟩]
  · rw [updateStep_messageAt, hlen2, if_pos ⟨rfl, hs⟩]
  · intro j hj1 hj2
    rw [hst j, if_neg (by omega)]
    exact hpend j (by omega) hj2
  · intro j
    by_cases hj11 : j < 11
    · rw [hst j]
      by_cases hsj : s = j ∧ j < 11
      · rw [if_pos hsj]
        simp
      · rw [if_neg hsj]
        by_cases hjs : j < s
        · rw [hdone j hjs]
          simp
        · rw [hpend j (by omega) hj11]
          simp
    · rw [statusAt_none]
      · simp
      · rw [updateStep_length, hlen2]
        omega

/-- Unfolding `runSteps` over a successful head step. -/
theorem runSteps_cons_ok (t : ProgressTracker) (op : StepOp)
    (rest : List StepOp) (i now : Nat)
    (h : (executeStep t (i : Int) op now).2 = .ok ()) :
    runSteps t (op :: rest) i now
      = runSteps (executeStep t (i : Int) op now).1 rest (i + 1) now := by
  show (match (executeStep t (i : Int) op now).2 with
    | .ok () => runSteps (executeStep t (i : Int) op now).1 rest (i + 1) now
    | .error msg => ((executeStep t (i : Int) op now).1, Except.error msg))
    = _
  rw [h]

/-- Unfolding `runSteps` over a failing head step: the failure
short-circuits and no later operation runs. -/
theorem runSteps_cons_err (t : ProgressTracker) (op : StepOp)
    (rest : List StepOp) (i now : Nat) (msg : String)
    (h : (executeStep t (i : Int) op now).2 = .error msg) :
    runSteps t (op :: rest) i now
      = ((executeStep t (i : Int) op now).1, .error msg) := by
  show (match (executeStep t (i : Int) op now).2 with
    | .ok () => runSteps (executeStep t (i : Int) op now).1 rest (i + 1) now
    | .error msg => ((executeStep t (i : Int) op now).1, Except.error msg))
    = _
  rw [h]

/-- Running a block of successful, status-preserving operations completes
exactly those steps. -/
theorem runSteps_ok (now : Nat) :
    ∀ (ops : List StepOp) (t : ProgressTracker) (s : Nat),
    (∀ op ∈ ops, opTame op ∧ ∀ t', (op t').2 = .ok ()) →
    s + ops.length ≤ 11 → prefixDone t s →
    (runSteps t ops s now).2 = .ok () ∧
    prefixDone (runSteps t ops s now).1 (s + ops.length) := by
  intro ops
  induction ops with
  | nil =>
      intro t s _ _ hpre
      exact ⟨rfl, by simpa using hpre⟩
  | cons op rest ih =>
      intro t s hops hlen hpre
      have hop := hops op (by simp)
      have h1 := executeStep_ok t s op now hop.1 hop.2
        (by simp at hlen; omega) hpre
      rw [runSteps_cons_ok t op rest s now h1.1]
      have h2 := ih (executeStep t (s : Int) op now).1 (s + 1)
        (fun o ho => hops o (by simp [ho]))
        (by simp at hlen ⊢; omega) h1.2
      refine ⟨h2.1, ?_⟩
      have harith : s + 1 + rest.length = s + (op :: rest).length := by
        simp
        omega
      rw [← harith]
      exact h2.2

/-- When no step is running, `getCurrentStep()` reports `-1`. -/
theorem getCurrentStep_none (t : ProgressTracker)
    (h : ∀ j, statusAt t j ≠ some .running) : t.getCurrentStep = -1 := by
  unfold ProgressTracker.getCurrentStep
  rw [List.findIdx?_eq_none_iff.mpr ?_]
  intro x hx
  simp only [decide_eq_false_iff_not]
  intro hrun
  rcases List.mem_iff_get?.mp hx with ⟨n, hn⟩
  apply h n
  unfold statusAt
  rw [hn]
  simp [hrun]

/-- Running successful steps and then the failing one: the exception
propagates, the tracker shows completed/error/pending in the claimed
pattern, the trailing operations are irrelevant, and no step stays
running. -/
theorem runSteps_fail_shape (now : Nat) (badOp : StepOp) (msg : String)
    (hbadTame : opTame badOp) (hbad : ∀ t', (badOp t').2 = .error msg) :
    ∀ (pre : List StepOp) (rest : List StepOp) (t : ProgressTracker) (s : Nat),
    (∀ op ∈ pre, opTame op ∧ ∀ t', (op t').2 = .ok ()) →
    s + pre.length < 11 → prefixDone t s →
    (runSteps t (pre ++ badOp :: rest) s now).2 = .error msg ∧
    runSteps t (pre ++ badOp :: rest) s now
      = runSteps t (pre ++ [badOp]) s now ∧
    (∀ j, j < s + pre.length →
      statusAt (runSteps t (pre ++ badOp :: rest) s now).1 j
        = some .completed) ∧
    statusAt (runSteps t (pre ++ badOp :: rest) s now).1 (s + pre.length)
      = some .error ∧
    messageAt (runSteps t (pre ++ badOp :: rest) s now).1 (s + pre.length)
      = some ("Erreur: " ++ msg) ∧
    (∀ j, s + pre.length < j → j < 11 →
      statusAt (runSteps t (pre ++ badOp :: rest) s now).1 j
        = some .pending) ∧
    (∀ j, statusAt (runSteps t (pre ++ badOp :: rest) s now).1 j
      ≠ some .running) := by
  intro pre
  induction pre with
  | nil =>
      intro rest t s _ hlen hdone
      have hfail := executeStep_fail t s badOp now msg hbadTame hbad
        (by simpa using hlen) hdone
      simp only [List.nil_append, List.length_nil, Nat.add_zero]
      rw [runSteps_cons_err t badOp rest s now msg hfail.1,
        runSteps_cons_err t badOp [] s now msg hfail.1]
      exact ⟨rfl, rfl, hfail.2.2.1, hfail.2.2.2.1, hfail.2.2.2.2.1,
        hfail.2.2.2.2.2.1, hfail.2.2.2.2.2.2⟩
  | cons op pre' ih =>
      intro rest t s hops hlen hdone
      have hop := hops op (by simp)
      have h1 := executeStep_ok t s op now hop.1 hop.2
        (by simp at hlen; omega) hdone
      have hih := ih rest (executeStep t (s : Int) op now).1 (s + 1)
        (fun o ho => hops o (by simp [ho]))
        (by simp at hlen ⊢; omega) h1.2
      have harith : s + (op :: pre').length = s + 1 + pre'.length := by
        simp
        omega
      simp only [List.cons_append]
      rw [runSteps_cons_ok t op (pre' ++ badOp :: rest) s now h1.1,
        runSteps_cons_ok t op (pre' ++ [badOp]) s now h1.1, harith]
      exact hih

/-- Unfolding `executeTransfer` when the step chain fails and leaves no
step running: the catch's extra update is a no-op and the error is
re-thrown. -/
theorem executeTransfer_eq_of_err (ops : List StepOp) (now : Nat)
    (msg : String)
    (herr : (runSteps (ProgressTracker.new now) ops 0 now).2 = .error msg)
    (hnorun : (runSteps (ProgressTracker.new now) ops 0 now).1.getCurrentStep
      = -1) :
    executeTransfer ops now
      = ((runSteps (ProgressTracker.new now) ops 0 now).1, .error msg) := by
  show (match (runSteps (ProgressTracker.new now) ops 0 now).2 with
    | .ok () => ((runSteps (ProgressTracker.new now) ops 0 now).1,
        Except.ok ())
    | .error m =>
        (if 0 ≤ (runSteps (ProgressTracker.new now) ops 0 now).1.getCurrentStep
          then (runSteps (ProgressTracker.new now) ops 0 now).1.updateStep
            ((runSteps (ProgressTracker.new now) ops 0 now).1.getCurrentStep)
            .error ("Erreur: " ++ m) 0 now
         else (runSteps (ProgressTracker.new now) ops 0 now).1,
         Except.error m))
    = _
  rw [herr]
  show (if 0 ≤ (runSteps (ProgressTracker.new now) ops 0 now).1.getCurrentStep
      then (runSteps (ProgressTracker.new now) ops 0 now).1.updateStep
        ((runSteps (ProgressTracker.new now) ops 0 now).1.getCurrentStep)
        .error ("Erreur: " ++ msg) 0 now
     else (runSteps (ProgressTracker.new now) ops 0 now).1,
     Except.error msg) = _
  rw [hnorun, if_neg (by decide)]

/-- C6: if the operation of step `k` throws while all earlier operations
succeed (all of them status-preserving, as the source's closures are), the
pipeline ends with steps `0..k−1` completed, step `k` in error carrying the
cause's message, steps `k+1..10` still pending; the exception is re-raised
by `executeTransfer`, and the operations after step `k` never execute (the
run is identical with them removed). -/
theorem executeTransfer_step_failure (pre : List StepOp) (badOp : StepOp)
    (rest : List StepOp) (msg : String) (now : Nat) (k : Nat)
    (hk : pre.length = k) (hk11 : k < 11)
    (hpre : ∀ op ∈ pre, opTame op ∧ ∀ t', (op t').2 = .ok ())
    (hbadTame : opTame badOp)
    (hbad : ∀ t', (badOp t').2 = .error msg) :
    (executeTransfer (pre ++ badOp :: rest) now).2 = .error msg ∧
    (∀ j, j < k →
      statusAt (executeTransfer (pre ++ badOp :: rest) now).1 j
        = some .completed) ∧
    statusAt (executeTransfer (pre ++ badOp :: rest) now).1 k
      = some .error ∧
    messageAt (executeTransfer (pre ++ badOp :: rest) now).1 k
      = some ("Erreur: " ++ msg) ∧
    (∀ j, k < j → j < 11 →
      statusAt (executeTransfer (pre ++ badOp :: rest) now).1 j
        = some .pending) ∧
    executeTransfer (pre ++ badOp :: rest) now
      = executeTransfer (pre ++ [badOp]) now := by
  have hA := runSteps_fail_shape now badOp msg hbadTame hbad pre rest
    (ProgressTracker.new now) 0 hpre (by omega) (prefixDone_new now)
  have hB := runSteps_fail_shape now badOp msg hbadTame hbad pre []
    (ProgressTracker.new now) 0 hpre (by omega) (prefixDone_new now)
  simp only [Nat.zero_add, hk] at hA hB
  have heqA := executeTransfer_eq_of_err (pre ++ badOp :: rest) now msg hA.1
    (getCurrentStep_none _ hA.2.2.2.2.2.2)
  have heqB := executeTransfer_eq_of_err (pre ++ [badOp]) now msg hB.1
    (getCurrentStep_none _ hB.2.2.2.2.2.2)
  rw [heqA, heqB]
  refine ⟨rfl, hA.2.2.1, hA.2.2.2.1, hA.2.2.2.2.1, hA.2.2.2.2.2.1, ?_⟩
  rw [hA.2.1]

/-- Witness for C6: an 3-op pipeline whose third operation throws "boom";
steps 0 and 1 end completed, step 2 in error with the message, step 3
(and beyond) pending, and the error is re-raised. -/
theorem executeTransfer_step_failure_witness :
    (executeTransfer
      [fun t => (t, .ok ()), fun t => (t, .ok ()),
       fun t => (t, .error "boom")] 0).2 = .error "boom" ∧
    statusAt (executeTransfer
      [fun t => (t, .ok ()), fun t => (t, .ok ()),
       fun t => (t, .error "boom")] 0).1 1 = some .completed ∧
    statusAt (executeTransfer
      [fun t => (t, .ok ()), fun t => (t, .ok ()),
       fun t => (t, .error "boom")] 0).1 2 = some .error ∧
    messageAt (executeTransfer
      [fun t => (t, .ok ()), fun t => (t, .ok ()),
       fun t => (t, .error "boom")] 0).1 2 = some ("Erreur: " ++ "boom") ∧
    statusAt (executeTransfer
      [fun t => (t, .ok ()), fun t => (t, .ok ()),
       fun t => (t, .error "boom")] 0).1 3 = some .pending := by
  have h := executeTransfer_step_failure
    [fun t => (t, .ok ()), fun t => (t, .ok ())]
    (fun t => (t, .error "boom")) [] "boom" 0 2 rfl (by decide)
    (by
      intro op hop
      have hcase : op = (fun t => (t, Except.ok ())) ∨
          op = (fun t => (t, Except.ok ())) := by
        simpa using hop
      rcases hcase with hcase | hcase <;> subst hcase <;>
        exact ⟨fun t => ⟨rfl, fun j => rfl⟩, fun t => rfl⟩)
    (fun t => ⟨rfl, fun j => rfl⟩) (fun t => rfl)
  exact ⟨h.1, h.2.1 1 (by decide), h.2.2.1, h.2.2.2.1,
    h.2.2.2.2.1 3 (by decide) (by decide)⟩

end MapTransfer
